import Mathlib

/-!
Shallow embedding of the benchmark-baseline pipeline
(`benchmarks/py/compare_baselines.py` and
`benchmarks/py/extract_performance_metrics.py`).

Conventions of the embedding:
* A ledger row is a `BaselineRecord`, a structure with one `String` field per
  CSV column (the CSV stores every value as text).
* Python `float(...)` on the decimal literals this pipeline produces is
  modelled by `pyFloat : String → Option ℚ`; `none` models a raised
  `ValueError`.  Exotic float syntax never produced by the ledger
  (exponents, `inf`, `nan`, whitespace, underscores) is outside the
  modelled fragment and maps to `none`.
* `calculate_percentage_change` returns `Option ℚ`; `none` models the
  string result `"N/A"`, `some q` the float result.
* Python's in-place stable `list.sort(key=lambda x: x['Date'])` is modelled
  by the stable insertion sort `sortByDate`; `compare_baselines` returns the
  final state of its input list as the second component of its result, making
  the in-place mutation explicit.
* The CSV file is modelled at row/field granularity as `List (List String)`
  (the `csv` module's writer/reader quote and unquote losslessly, so the
  row-of-fields level is exact); `Option` distinguishes an absent file.
-/

/-- Lexicographic order on code-point lists, as Python compares strings. -/
def charListLt : List Char → List Char → Bool
  | _, [] => false
  | [], _ :: _ => true
  | a :: as, b :: bs =>
      if a < b then true
      else if b < a then false
      else charListLt as bs

/-- Python string comparison `a < b` (code-point lexicographic). -/
def strLt (a b : String) : Bool := charListLt a.data b.data

/-- One row of the baseline ledger: the fixed CSV schema, every value text. -/
structure BaselineRecord where
  Date : String
  CommitHash : String
  CPUModel : String
  RAM : String
  OS : String
  BuildConfig : String
  FileOpenTime : String
  FileSaveTime : String
  MemoryUsage : String
  TextInsertionTime : String
  NavigationTime : String
  ScrollingTime : String
  SearchReplaceTime : String
deriving DecidableEq, Repr

/-- Insert a record into an already-processed list, after every record whose
date does not exceed it — the insertion step of a stable sort by `Date`. -/
def insertByDate (r : BaselineRecord) : List BaselineRecord → List BaselineRecord
  | [] => [r]
  | y :: ys => if strLt r.Date y.Date then r :: y :: ys else y :: insertByDate r ys

/-- Model of `baselines.sort(key=lambda x: x['Date'])`: a stable sort by the
`Date` field (Python's sort is stable; any stable sort by the same key
produces the same list). -/
def sortByDate (l : List BaselineRecord) : List BaselineRecord :=
  l.foldl (fun acc r => insertByDate r acc) []

/-- Numeric value of a digit string, most significant digit first. -/
def digitsVal (ds : List Char) : ℕ := ds.foldl (fun a c => 10 * a + (c.toNat - 48)) 0

/-- Unsigned decimal literal: digits, optionally a point and more digits,
with at least one digit present. -/
def parseDecimal (cs : List Char) : Option ℚ :=
  let ds := cs.takeWhile Char.isDigit
  let rest := cs.dropWhile Char.isDigit
  match rest with
  | [] => if ds.isEmpty then none else some ((digitsVal ds : ℚ))
  | c :: frac =>
      if c = '.' then
        let fs := frac.takeWhile Char.isDigit
        if (frac.dropWhile Char.isDigit).isEmpty && (!ds.isEmpty || !fs.isEmpty) then
          some ((digitsVal ds : ℚ) + (digitsVal fs : ℚ) / (10 : ℚ) ^ fs.length)
        else none
      else none

/-- Model of Python `float(s)` on the fragment the ledger produces: an
optional sign followed by a decimal literal; anything else raises, i.e.
returns `none`. -/
def pyFloat (s : String) : Option ℚ :=
  match s.data with
  | '+' :: t => parseDecimal t
  | '-' :: t => (parseDecimal t).map (fun q => -q)
  | t => parseDecimal t

/-- Embedding of `calculate_percentage_change(old, new)`: convert both values
with `float`; a conversion failure or a zero `old` yields `"N/A"` (here
`none`); otherwise `((new - old) / old) * 100`. -/
def calculate_percentage_change (old new : String) : Option ℚ :=
  match pyFloat old, pyFloat new with
  | some a, some b => if a = 0 then none else some ((b - a) / a * 100)
  | _, _ => none

/-- The comparison dictionary built by `compare_baselines`: overview fields
plus one percentage change per tracked metric. -/
structure Comparison where
  Date : String
  PreviousDate : String
  CommitHash : String
  PreviousCommitHash : String
  BuildConfig : String
  PreviousBuildConfig : String
  FileOpenTime_Change : Option ℚ
  FileSaveTime_Change : Option ℚ
  MemoryUsage_Change : Option ℚ
  TextInsertionTime_Change : Option ℚ
  NavigationTime_Change : Option ℚ
  ScrollingTime_Change : Option ℚ
  SearchReplaceTime_Change : Option ℚ
deriving DecidableEq, Repr

/-- The comparison dictionary for a given `previous` and `latest` record: the
metric loop of `compare_baselines`, unrolled over the fixed metric list. -/
def mkComparison (previous latest : BaselineRecord) : Comparison where
  Date := latest.Date
  PreviousDate := previous.Date
  CommitHash := latest.CommitHash
  PreviousCommitHash := previous.CommitHash
  BuildConfig := latest.BuildConfig
  PreviousBuildConfig := previous.BuildConfig
  FileOpenTime_Change := calculate_percentage_change previous.FileOpenTime latest.FileOpenTime
  FileSaveTime_Change := calculate_percentage_change previous.FileSaveTime latest.FileSaveTime
  MemoryUsage_Change := calculate_percentage_change previous.MemoryUsage latest.MemoryUsage
  TextInsertionTime_Change := calculate_percentage_change previous.TextInsertionTime latest.TextInsertionTime
  NavigationTime_Change := calculate_percentage_change previous.NavigationTime latest.NavigationTime
  ScrollingTime_Change := calculate_percentage_change previous.ScrollingTime latest.ScrollingTime
  SearchReplaceTime_Change := calculate_percentage_change previous.SearchReplaceTime latest.SearchReplaceTime

/-- Embedding of `compare_baselines(baselines)`.  With fewer than two records
it prints a diagnostic and returns `None` (first component `none`), leaving
the list untouched.  Otherwise it sorts the list in place by date, takes the
last two entries as `latest` and `previous`, and builds the comparison.  The
second component is the state of the caller's list after the call, making the
in-place `baselines.sort(...)` explicit.  (The fallback arm is unreachable:
sorting preserves length, so a list of length at least two has two entries
after its reversal.) -/
def compare_baselines (baselines : List BaselineRecord) :
    Option Comparison × List BaselineRecord :=
  if baselines.length < 2 then (none, baselines)
  else
    match (sortByDate baselines).reverse with
    | latest :: previous :: _ =>
        (some (mkComparison previous latest), sortByDate baselines)
    | _ => (none, sortByDate baselines)

/-- The fixed CSV column order of `extract_metrics` (its `fieldnames` list). -/
def fieldnames : List String :=
  ["Date", "CommitHash", "CPUModel", "RAM", "OS", "BuildConfig",
   "FileOpenTime", "FileSaveTime", "MemoryUsage", "TextInsertionTime",
   "NavigationTime", "ScrollingTime", "SearchReplaceTime"]

/-- The CSV row `csv.DictWriter.writerow` emits for a record: its values in
`fieldnames` order. -/
def recordRow (r : BaselineRecord) : List String :=
  [r.Date, r.CommitHash, r.CPUModel, r.RAM, r.OS, r.BuildConfig,
   r.FileOpenTime, r.FileSaveTime, r.MemoryUsage, r.TextInsertionTime,
   r.NavigationTime, r.ScrollingTime, r.SearchReplaceTime]

/-- A record's fields as (column name, value) pairs, in column order. -/
def recordFields (r : BaselineRecord) : List (String × String) :=
  fieldnames.zip (recordRow r)

/-- The write phase of `extract_metrics`: the store (a CSV file at row/field
granularity, `none` when the file is absent) is opened in append mode; a
header row is written first exactly when `os.path.isfile` reported the file
absent; then the record's data row is appended. -/
def appendBaseline : Option (List (List String)) → BaselineRecord → Option (List (List String))
  | none, r => some [fieldnames, recordRow r]
  | some rows, r => some (rows ++ [recordRow r])

/-- One row as `csv.DictReader` yields it: each header column paired with its
value, `none` standing for Python `None` when the row is short (`restval`),
and any columns beyond the header collected in `rest` (the reader files them
under the `None` key). -/
structure DictRow where
  fields : List (String × Option String)
  rest : List String
deriving DecidableEq, Repr

/-- Pair header columns with row values, padding a short row with `none`
exactly as `csv.DictReader` pads with its default `restval=None`. -/
def zipHeader : List String → List String → List (String × Option String)
  | [], _ => []
  | h :: hs, [] => (h, none) :: zipHeader hs []
  | h :: hs, v :: vs => (h, some v) :: zipHeader hs vs

/-- How `csv.DictReader` turns one data row into a dict, given the header. -/
def dictReadRow (header row : List String) : DictRow :=
  ⟨zipHeader header row, row.drop header.length⟩

/-- Embedding of `load_baselines(csv_file)` on the file's parsed rows: the
first row is the header; each later row becomes a dict keyed by it, except
that `csv.DictReader` skips blank data rows (its `while row == []` loop), so
a width-0 row yields no record. -/
def load_baselines : List (List String) → List DictRow
  | [] => []
  | header :: rows =>
      (rows.filter (fun row => !row.isEmpty)).map (dictReadRow header)

/-- `load_baselines` on the store: reading an absent file raises (`none`). -/
def loadAll (store : Option (List (List String))) : Option (List DictRow) :=
  store.map load_baselines

/-- The tracked metric names, in declared order (the `metrics` list of
`compare_baselines` and the keys of `patterns` in `extract_metrics`). -/
def metricNames : List String :=
  ["FileOpenTime", "FileSaveTime", "MemoryUsage", "TextInsertionTime",
   "NavigationTime", "ScrollingTime", "SearchReplaceTime"]

/-- The regex table of `extract_metrics`, each pattern split into its literal
label, the `(\d+)` capture, and its literal unit suffix. -/
def metricPatterns : List (String × String × String) :=
  [("FileOpenTime", "File open time: ", "ms"),
   ("FileSaveTime", "File save time: ", "ms"),
   ("MemoryUsage", "Memory usage: ", "MB"),
   ("TextInsertionTime", "Text insertion time: ", "ms"),
   ("NavigationTime", "Navigation time: ", "ms"),
   ("ScrollingTime", "Scrolling time: ", "ms"),
   ("SearchReplaceTime", "Search/Replace time: ", "ms")]

/-- Try the pattern `label (\d+) unit` anchored at the start of `s`: the
label must match literally, then a maximal nonempty run of digits, then the
unit.  Backtracking into a shorter digit run can never help, because each
unit starts with a non-digit, so the maximal run is exactly what the regex
engine captures. -/
def matchLabeledAt (pre suf s : List Char) : Option (List Char) :=
  if pre.isPrefixOf s then
    let rest := s.drop pre.length
    let ds := rest.takeWhile Char.isDigit
    if !ds.isEmpty && suf.isPrefixOf (rest.dropWhile Char.isDigit) then some ds else none
  else none

/-- Model of `re.search` for the patterns above: try each start position
left to right and return the first (leftmost) capture.  `\d` is modelled as
the ASCII digits the test output produces. -/
def reSearchNum (pre suf : List Char) : List Char → Option (List Char)
  | [] => matchLabeledAt pre suf []
  | c :: t =>
      match matchLabeledAt pre suf (c :: t) with
      | some ds => some ds
      | none => reSearchNum pre suf t

/-- The metric loop of `extract_metrics`: for each pattern, the first match's
captured digits, else the string N/A.  (The surrounding date/commit/system
fields come from ambient providers outside this pure fragment.) -/
def extractMetricValues (content : String) : List (String × String) :=
  metricPatterns.map (fun p =>
    (p.1,
     match reSearchNum p.2.1.data p.2.2.data content.data with
     | some ds => String.mk ds
     | none => "N/A"))

/-- Sorted by date, in the order the in-place sort establishes: each record's
date is at most every later record's date (written as "no later record's
date is strictly below it"). -/
def DateSorted (l : List BaselineRecord) : Prop :=
  l.Pairwise (fun x y => strLt y.Date x.Date = false)

/-- Sample record dated 2024-01-01 with FileOpenTime 100. -/
def recJan : BaselineRecord :=
  ⟨"2024-01-01", "aaa", "cpu", "16GB", "Linux 6", "Release",
   "100", "10", "200", "5", "3", "2", "8"⟩

/-- Sample record dated 2024-02-01 with FileOpenTime 150. -/
def recFeb : BaselineRecord :=
  ⟨"2024-02-01", "bbb", "cpu", "16GB", "Linux 6", "Release",
   "150", "10", "200", "5", "3", "2", "8"⟩

/-- A second record sharing `recJan`'s date but from a different commit. -/
def recJanBis : BaselineRecord :=
  ⟨"2024-01-01", "ccc", "cpu", "16GB", "Linux 6", "Release",
   "110", "11", "210", "6", "4", "3", "9"⟩

/-- Lexicographic comparison is irreflexive. -/
theorem charListLt_irrefl : ∀ l : List Char, charListLt l l = false
  | [] => rfl
  | a :: as => by
      unfold charListLt
      rw [if_neg (lt_irrefl a), if_neg (lt_irrefl a)]
      exact charListLt_irrefl as

/-- Lexicographic comparison is asymmetric. -/
theorem charListLt_asymm : ∀ l m : List Char,
    charListLt l m = true → charListLt m l = false
  | [], [], h => by simp [charListLt] at h
  | [], _ :: _, _ => rfl
  | _ :: _, [], h => by simp [charListLt] at h
  | a :: as, b :: bs, h => by
      unfold charListLt at h ⊢
      by_cases hab : a < b
      · rw [if_neg (lt_asymm hab), if_pos hab]
      · rw [if_neg hab] at h
        by_cases hba : b < a
        · rw [if_pos hba] at h
          exact absurd h (by simp)
        · rw [if_neg hba] at h
          rw [if_neg hba, if_neg hab]
          exact charListLt_asymm as bs h

/-- Lexicographic comparison is transitive. -/
theorem charListLt_trans : ∀ l m n : List Char,
    charListLt l m = true → charListLt m n = true → charListLt l n = true
  | _, [], _, h1, _ => by simp [charListLt] at h1
  | _, _ :: _, [], _, h2 => by simp [charListLt] at h2
  | [], _ :: _, _ :: _, _, _ => rfl
  | a :: as, b :: bs, c :: cs, h1, h2 => by
      unfold charListLt at h1 h2 ⊢
      by_cases hab : a < b
      · by_cases hbc : b < c
        · rw [if_pos (lt_trans hab hbc)]
        · rw [if_neg hbc] at h2
          by_cases hcb : c < b
          · rw [if_pos hcb] at h2
            exact absurd h2 (by simp)
          · have hbceq : b = c := le_antisymm (le_of_not_lt hcb) (le_of_not_lt hbc)
            rw [if_pos (hbceq ▸ hab)]
      · rw [if_neg hab] at h1
        by_cases hba : b < a
        · rw [if_pos hba] at h1
          exact absurd h1 (by simp)
        · rw [if_neg hba] at h1
          have habeq : a = b := le_antisymm (le_of_not_lt hba) (le_of_not_lt hab)
          subst habeq
          by_cases hac : a < c
          · rw [if_pos hac]
          · rw [if_neg hac] at h2 ⊢
            by_cases hca : c < a
            · rw [if_pos hca] at h2
              exact absurd h2 (by simp)
            · rw [if_neg hca] at h2 ⊢
              exact charListLt_trans as bs cs h1 h2

/-- String comparison is irreflexive. -/
theorem strLt_irrefl (a : String) : strLt a a = false :=
  charListLt_irrefl a.data

/-- String comparison is asymmetric. -/
theorem strLt_asymm {a b : String} (h : strLt a b = true) : strLt b a = false :=
  charListLt_asymm a.data b.data h

/-- String comparison is transitive. -/
theorem strLt_trans {a b c : String} (h1 : strLt a b = true) (h2 : strLt b c = true) :
    strLt a c = true :=
  charListLt_trans a.data b.data c.data h1 h2

/-- Membership in the insertion step. -/
theorem mem_insertByDate {z r : BaselineRecord} :
    ∀ acc : List BaselineRecord, z ∈ insertByDate r acc ↔ z = r ∨ z ∈ acc
  | [] => by simp [insertByDate]
  | y :: ys => by
      unfold insertByDate
      by_cases hlt : strLt r.Date y.Date
      · rw [if_pos hlt]
        simp [or_comm, or_assoc, or_left_comm]
      · rw [if_neg hlt]
        simp only [List.mem_cons, mem_insertByDate ys]
        tauto

/-- The insertion step keeps the accumulator sorted. -/
theorem dateSorted_insertByDate (r : BaselineRecord) :
    ∀ {acc : List BaselineRecord}, DateSorted acc → DateSorted (insertByDate r acc)
  | [], _ => List.pairwise_singleton _ _
  | y :: ys, h => by
      obtain ⟨hy, hys⟩ := List.pairwise_cons.mp h
      unfold insertByDate
      cases hlt : strLt r.Date y.Date
      · rw [if_neg (by simp [hlt])]
        refine List.pairwise_cons.mpr ⟨?_, dateSorted_insertByDate r hys⟩
        intro z hz
        rcases (mem_insertByDate _).mp hz with hzr | hzys
        · rw [hzr]; exact hlt
        · exact hy z hzys
      · rw [if_pos rfl]
        refine List.pairwise_cons.mpr ⟨?_, h⟩
        intro z hz
        rcases List.mem_cons.mp hz with hzy | hzys
        · rw [hzy]; exact strLt_asymm hlt
        · cases hzr : strLt z.Date r.Date
          · rfl
          · have : strLt z.Date y.Date = true := strLt_trans hzr hlt
            rw [hy z hzys] at this
            exact this.symm

/-- Filtering by an exact date commutes with the insertion step on a sorted
accumulator: the new record lands after every existing record of its date. -/
theorem filter_insertByDate (d : String) (r : BaselineRecord) :
    ∀ {acc : List BaselineRecord}, DateSorted acc →
    (insertByDate r acc).filter (fun x => decide (x.Date = d)) =
      (if r.Date = d
        then acc.filter (fun x => decide (x.Date = d)) ++ [r]
        else acc.filter (fun x => decide (x.Date = d)))
  | [], _ => by
      by_cases hrd : r.Date = d <;> simp [insertByDate, List.filter_cons, hrd]
  | y :: ys, h => by
      obtain ⟨hy, hys⟩ := List.pairwise_cons.mp h
      unfold insertByDate
      cases hlt : strLt r.Date y.Date
      · rw [if_neg (by simp [hlt])]
        by_cases hrd : r.Date = d <;> by_cases hyd : y.Date = d <;>
          simp [List.filter_cons, hrd, hyd, filter_insertByDate d r hys]
      · rw [if_pos rfl]
        by_cases hrd : r.Date = d
        · have hnil : (y :: ys).filter (fun x => decide (x.Date = d)) = [] := by
            rw [List.filter_eq_nil_iff]
            intro z hz
            simp only [decide_eq_true_eq]
            intro hzd
            rcases List.mem_cons.mp hz with hzy | hzys
            · subst hzy
              rw [hzd, ← hrd, strLt_irrefl] at hlt
              exact absurd hlt (by simp)
            · have hzy2 := hy z hzys
              rw [hzd, ← hrd, hlt] at hzy2
              exact absurd hzy2 (by simp)
          rw [if_pos hrd, List.filter_cons, if_pos (by simp [hrd]), hnil]
          rfl
        · rw [if_neg hrd, List.filter_cons, if_neg (by simp [hrd])]

/-- Invariant of the fold that implements `sortByDate`: it keeps the
accumulator sorted and, for every date, appends the date's records in their
input order after the ones already accumulated. -/
theorem sortByDate_aux :
    ∀ (l acc : List BaselineRecord), DateSorted acc →
    DateSorted (l.foldl (fun a r => insertByDate r a) acc) ∧
    ∀ d, (l.foldl (fun a r => insertByDate r a) acc).filter (fun x => decide (x.Date = d)) =
      acc.filter (fun x => decide (x.Date = d)) ++ l.filter (fun x => decide (x.Date = d))
  | [], acc, h => ⟨h, fun d => by simp⟩
  | r :: t, acc, h => by
      have hins := dateSorted_insertByDate r h
      obtain ⟨hs, hf⟩ := sortByDate_aux t (insertByDate r acc) hins
      constructor
      · simpa [List.foldl_cons] using hs
      · intro d
        rw [List.foldl_cons, hf d, filter_insertByDate d r h, List.filter_cons]
        by_cases hrd : r.Date = d
        · rw [if_pos hrd, if_pos (by simp [hrd])]
          simp
        · rw [if_neg hrd, if_neg (by simp [hrd])]

/-- The in-place sort keeps records of any fixed date in file order. -/
theorem sortByDate_filter (l : List BaselineRecord) (d : String) :
    (sortByDate l).filter (fun x => decide (x.Date = d)) =
      l.filter (fun x => decide (x.Date = d)) := by
  have := (sortByDate_aux l [] (List.Pairwise.nil)).2 d
  simpa [sortByDate] using this

/-- The result of the in-place sort is sorted by date. -/
theorem sortByDate_sorted (l : List BaselineRecord) : DateSorted (sortByDate l) :=
  (sortByDate_aux l [] (List.Pairwise.nil)).1

/-- The insertion step permutes consing. -/
theorem insertByDate_perm (r : BaselineRecord) :
    ∀ acc : List BaselineRecord, (insertByDate r acc).Perm (r :: acc)
  | [] => List.Perm.refl _
  | y :: ys => by
      unfold insertByDate
      by_cases hlt : strLt r.Date y.Date
      · rw [if_pos hlt]
      · rw [if_neg hlt]
        exact ((insertByDate_perm r ys).cons y).trans (List.Perm.swap r y ys)

/-- The fold behind `sortByDate` permutes appending. -/
theorem sortByDate_aux_perm :
    ∀ (l acc : List BaselineRecord),
      (l.foldl (fun a r => insertByDate r a) acc).Perm (acc ++ l)
  | [], acc => by simp
  | r :: t, acc => by
      rw [List.foldl_cons]
      refine (sortByDate_aux_perm t (insertByDate r acc)).trans ?_
      refine (((insertByDate_perm r acc).append_right t).trans ?_)
      exact List.perm_middle.symm

/-- The in-place sort permutes the list. -/
theorem sortByDate_perm (l : List BaselineRecord) : (sortByDate l).Perm l := by
  simpa [sortByDate] using sortByDate_aux_perm l []

/-- The in-place sort preserves length. -/
theorem sortByDate_length (l : List BaselineRecord) :
    (sortByDate l).length = l.length :=
  (sortByDate_perm l).length_eq

/-- Inserting past records whose dates are all at most the new date appends. -/
theorem insertByDate_append (r : BaselineRecord) :
    ∀ {acc : List BaselineRecord},
      (∀ y ∈ acc, strLt r.Date y.Date = false) → insertByDate r acc = acc ++ [r]
  | [], _ => rfl
  | y :: ys, h => by
      unfold insertByDate
      rw [if_neg (by simp [h y (List.mem_cons_self y ys)])]
      rw [insertByDate_append r (fun z hz => h z (List.mem_cons_of_mem y hz))]
      rfl

/-- Folding insertion over an already sorted suffix only appends it. -/
theorem sortByDate_aux_of_sorted :
    ∀ (l acc : List BaselineRecord), DateSorted (acc ++ l) →
      l.foldl (fun a r => insertByDate r a) acc = acc ++ l
  | [], acc, _ => by simp
  | r :: t, acc, h => by
      have hsplit := List.pairwise_append.mp h
      have hacc : ∀ y ∈ acc, strLt r.Date y.Date = false := by
        intro y hy
        exact hsplit.2.2 y hy r (List.mem_cons_self r t)
      rw [List.foldl_cons, insertByDate_append r hacc]
      have h2 : DateSorted ((acc ++ [r]) ++ t) := by
        simpa [List.append_assoc] using h
      rw [sortByDate_aux_of_sorted t (acc ++ [r]) h2]
      simp

/-- Sorting an already date-sorted list leaves it unchanged. -/
theorem sortByDate_of_sorted {l : List BaselineRecord} (h : DateSorted l) :
    sortByDate l = l := by
  have := sortByDate_aux_of_sorted l [] (by simpa using h)
  simpa [sortByDate] using this

/-- Filtering keeps the last element when the last element passes. -/
theorem filter_getLast? {α : Type} {p : α → Bool} :
    ∀ {t : List α} {x : α}, t.getLast? = some x → p x = true →
      (t.filter p).getLast? = some x
  | [], x, h, _ => by simp at h
  | [a], x, h, hp => by
      simp only [List.getLast?_singleton, Option.some.injEq] at h
      subst h
      simp [List.filter_cons, hp]
  | a :: b :: t, x, h, hp => by
      rw [List.getLast?_cons_cons] at h
      have ih := filter_getLast? h hp
      rw [List.filter_cons]
      by_cases hpa : p a
      · rw [if_pos (by simp [hpa])]
        cases e : (b :: t).filter p with
        | nil => rw [e] at ih; simp at ih
        | cons c cs => rw [e] at ih; rw [List.getLast?_cons_cons]; exact ih
      · rw [if_neg (by simp [hpa])]
        exact ih

/-- The header-pairing step keys a dict row by exactly the header columns. -/
theorem zipHeader_map_fst : ∀ hs vs : List String,
    (zipHeader hs vs).map Prod.fst = hs
  | [], _ => rfl
  | h :: hs, [] => by simp [zipHeader, zipHeader_map_fst hs []]
  | h :: hs, v :: vs => by simp [zipHeader, zipHeader_map_fst hs vs]

/-- An anchored match captures a nonempty run of digits. -/
theorem matchLabeledAt_digits {pre suf s ds : List Char}
    (h : matchLabeledAt pre suf s = some ds) :
    ds ≠ [] ∧ ds.all Char.isDigit = true := by
  unfold matchLabeledAt at h
  by_cases hpre : pre.isPrefixOf s
  · rw [if_pos hpre] at h
    set rest := s.drop pre.length with hrest
    by_cases hguard :
        !(rest.takeWhile Char.isDigit).isEmpty &&
          suf.isPrefixOf (rest.dropWhile Char.isDigit)
    · rw [if_pos hguard] at h
      have hg := hguard
      rw [Bool.and_eq_true] at hg
      obtain ⟨hne, _⟩ := hg
      injection h with hds
      subst hds
      constructor
      · intro hnil
        rw [hnil] at hne
        simp at hne
      · rw [List.all_eq_true]
        intro a ha
        exact List.mem_takeWhile_imp ha
    · rw [if_neg hguard] at h
      exact absurd h (by simp)
  · rw [if_neg hpre] at h
    exact absurd h (by simp)

/-- A successful search returns a nonempty run of digits. -/
theorem reSearchNum_digits {pre suf : List Char} :
    ∀ {s ds : List Char}, reSearchNum pre suf s = some ds →
      ds ≠ [] ∧ ds.all Char.isDigit = true
  | [], ds, h => matchLabeledAt_digits (by simpa [reSearchNum] using h)
  | c :: t, ds, h => by
      unfold reSearchNum at h
      cases e : matchLabeledAt pre suf (c :: t) with
      | some ds₂ =>
          rw [e] at h
          injection h with hds
          subst hds
          exact matchLabeledAt_digits e
      | none =>
          rw [e] at h
          exact reSearchNum_digits h

/-- C1: for every pair of ledger values whose metric fields convert as
numbers with the previous value non-zero, `calculate_percentage_change`
computes `(latest − previous) / previous × 100`; concretely, between the
records dated 2024-01-01 (FileOpenTime 100) and 2024-02-01
(FileOpenTime 150) the FileOpenTime change computed by `compare_baselines`
is exactly 50 percent (rendered `+50.00%`). -/
theorem percentage_change_formula :
    (∀ (old new : String) (a b : ℚ), pyFloat old = some a → pyFloat new = some b →
      a ≠ 0 → calculate_percentage_change old new = some ((b - a) / a * 100)) ∧
    ((compare_baselines [recJan, recFeb]).1.map Comparison.FileOpenTime_Change =
      some (some 50)) := by
  constructor
  · intro old new a b ha hb h0
    simp [calculate_percentage_change, ha, hb, h0]
  · show some (calculate_percentage_change "100" "150") = some (some 50)
    have h : calculate_percentage_change "100" "150" = some 50 := by
      show (if (100 : ℚ) = 0 then none else some (((150 : ℚ) - 100) / 100 * 100)) =
        some 50
      norm_num
    rw [h]

/-- C1 witness: the general formula applied to previous 100, latest 150. -/
theorem percentage_change_formula_witness :
    calculate_percentage_change "100" "150" = some (((150 : ℚ) - 100) / 100 * 100) :=
  percentage_change_formula.1 "100" "150" 100 150 rfl rfl (by norm_num)

/-- C2: a previous value that converts to numeric zero short-circuits to the
"N/A" result before any division; concretely previous 0, latest 50 gives
"N/A" (here `none`), not an error or an infinity. -/
theorem zero_previous_gives_na :
    (∀ old new : String, pyFloat old = some 0 →
      calculate_percentage_change old new = none) ∧
    calculate_percentage_change "0" "50" = none := by
  constructor
  · intro old new h
    cases hn : pyFloat new <;> simp [calculate_percentage_change, h, hn]
  · rfl

/-- C2 witness: the zero-previous rule applied to previous 0, latest 50. -/
theorem zero_previous_gives_na_witness :
    calculate_percentage_change "0" "50" = none :=
  zero_previous_gives_na.1 "0" "50" rfl

/-- C3 counterexample: `compare_baselines` is not pure — on the two-record
list [recFeb, recJan], whose dates are out of order, the in-place sort
reorders the caller's list, so after the call the list differs from the
input. -/
theorem compare_mutates_input :
    (compare_baselines [recFeb, recJan]).2 ≠ [recFeb, recJan] := by decide

/-- C3 amended: `compare_baselines` never adds, removes or edits a record —
the caller's list after the call is a permutation of the input, namely the
input sorted by date — and an input already sorted by date is left
unchanged; but the in-place sort means the call is not pure on unsorted
input. -/
theorem compare_preserves_elements :
    (∀ l : List BaselineRecord, ((compare_baselines l).2).Perm l) ∧
    (∀ l : List BaselineRecord, DateSorted l → (compare_baselines l).2 = l) := by
  constructor
  · intro l
    unfold compare_baselines
    split
    · exact List.Perm.refl l
    · split
      · exact sortByDate_perm l
      · exact sortByDate_perm l
  · intro l h
    unfold compare_baselines
    split
    · rfl
    · split
      · exact sortByDate_of_sorted h
      · exact sortByDate_of_sorted h

/-- C3 witness: a date-sorted two-record list comes back unchanged. -/
theorem compare_preserves_elements_witness :
    (compare_baselines [recJan, recFeb]).2 = [recJan, recFeb] :=
  compare_preserves_elements.2 [recJan, recFeb] (by unfold DateSorted; decide)

/-- C4 counterexample: swapping latest and previous does not negate the
change even up to tolerance — 100 → 150 gives +50 while the reverse gives
−100/3 ≈ −33.33, and 50 differs from −(−100/3) by 50/3 > 16. -/
theorem swap_change_counterexample :
    calculate_percentage_change "100" "150" = some 50 ∧
    calculate_percentage_change "150" "100" = some (-100 / 3) ∧
    (50 : ℚ) ≠ -(-100 / 3) ∧
    (50 : ℚ) - -(-100 / 3) > 16 := by
  refine ⟨?_, ?_, by norm_num, by norm_num⟩
  · show (if (100 : ℚ) = 0 then none else some (((150 : ℚ) - 100) / 100 * 100)) =
      some 50
    norm_num
  · show (if (150 : ℚ) = 0 then none else some (((100 : ℚ) - 150) / 150 * 100)) =
      some (-100 / 3)
    norm_num

/-- C4 amended: if either value fails to convert, both directions give
"N/A"; if both convert to positive numbers, both directions are numeric,
the two changes satisfy (1 + c/100)(1 + cRev/100) = 1, and swapping inverts
the sign of the change (positive one way exactly when negative the other,
zero exactly when zero) — but the magnitudes differ in general.  A zero
value gives "N/A" only in the direction that uses it as the previous
value. -/
theorem swap_inverts_sign :
    (∀ old new : String, pyFloat old = none ∨ pyFloat new = none →
      calculate_percentage_change old new = none ∧
      calculate_percentage_change new old = none) ∧
    (∀ (old new : String) (a b : ℚ), pyFloat old = some a → pyFloat new = some b →
      0 < a → 0 < b →
      ∃ c cRev, calculate_percentage_change old new = some c ∧
        calculate_percentage_change new old = some cRev ∧
        (1 + c / 100) * (1 + cRev / 100) = 1 ∧
        (0 < c ↔ cRev < 0) ∧ (c = 0 ↔ cRev = 0)) := by
  constructor
  · intro old new h
    rcases h with h | h
    · constructor
      · simp [calculate_percentage_change, h]
      · cases hn : pyFloat new <;> simp [calculate_percentage_change, h, hn]
    · constructor
      · cases ho : pyFloat old <;> simp [calculate_percentage_change, h, ho]
      · simp [calculate_percentage_change, h]
  · intro old new a b ha hb hA hB
    refine ⟨(b - a) / a * 100, (a - b) / b * 100, ?_, ?_, ?_, ?_, ?_⟩
    · simp [calculate_percentage_change, ha, hb, ne_of_gt hA]
    · simp [calculate_percentage_change, ha, hb, ne_of_gt hB]
    · field_simp
      ring
    · rcases lt_trichotomy a b with h | h | h
      · exact iff_of_true
          (mul_pos (div_pos (sub_pos.mpr h) hA) (by norm_num))
          (mul_neg_of_neg_of_pos (div_neg_of_neg_of_pos (sub_neg.mpr h) hB) (by norm_num))
      · subst h
        simp
      · exact iff_of_false
          (not_lt.mpr (le_of_lt (mul_neg_of_neg_of_pos
            (div_neg_of_neg_of_pos (sub_neg.mpr h) hA) (by norm_num))))
          (not_lt.mpr (le_of_lt (mul_pos (div_pos (sub_pos.mpr h) hB) (by norm_num))))
    · rcases lt_trichotomy a b with h | h | h
      · exact iff_of_false
          (ne_of_gt (mul_pos (div_pos (sub_pos.mpr h) hA) (by norm_num)))
          (ne_of_lt (mul_neg_of_neg_of_pos (div_neg_of_neg_of_pos (sub_neg.mpr h) hB)
            (by norm_num)))
      · subst h
        simp
      · exact iff_of_false
          (ne_of_lt (mul_neg_of_neg_of_pos (div_neg_of_neg_of_pos (sub_neg.mpr h) hA)
            (by norm_num)))
          (ne_of_gt (mul_pos (div_pos (sub_pos.mpr h) hB) (by norm_num)))

/-- C4 amended witness: both directions between 100 and 150 are numeric,
multiply back to 1, and carry opposite signs. -/
theorem swap_inverts_sign_witness :
    ∃ c cRev, calculate_percentage_change "100" "150" = some c ∧
      calculate_percentage_change "150" "100" = some cRev ∧
      (1 + c / 100) * (1 + cRev / 100) = 1 ∧
      (0 < c ↔ cRev < 0) ∧ (c = 0 ↔ cRev = 0) :=
  swap_inverts_sign.2 "100" "150" 100 150 rfl rfl (by norm_num) (by norm_num)

/-- C5 counterexample: a data row with one column under a 13-column header is
not a fatal parse error — `load_baselines` returns it as a record whose
missing columns hold the `None` filler, so a record set with a short row is
returned. -/
theorem load_short_row_not_fatal :
    loadAll (some [fieldnames, ["2024-01-01"]]) =
      some [⟨[("Date", some "2024-01-01"), ("CommitHash", none), ("CPUModel", none),
              ("RAM", none), ("OS", none), ("BuildConfig", none),
              ("FileOpenTime", none), ("FileSaveTime", none), ("MemoryUsage", none),
              ("TextInsertionTime", none), ("NavigationTime", none),
              ("ScrollingTime", none), ("SearchReplaceTime", none)], []⟩] ∧
    ("CommitHash", (none : Option String)) ∈
      (dictReadRow fieldnames ["2024-01-01"]).fields := by
  constructor
  · rfl
  · decide

/-- C5 amended: a column-count mismatch is never a fatal parse error —
`load_baselines` returns exactly one record per non-blank data row whatever
the row's width, each record keyed by exactly the header columns (short rows
padded with the `None` filler, surplus cells collected in the rest field);
the only rows that yield no record are blank (width-0) ones, which the
reader skips rather than rejects. -/
theorem load_baselines_tolerates_mismatch :
    ∀ (header : List String) (rows : List (List String)),
      (load_baselines (header :: rows)).length =
        (rows.filter (fun row => !row.isEmpty)).length ∧
      (∀ dr ∈ load_baselines (header :: rows), dr.fields.map Prod.fst = header) ∧
      ∀ rest : List (List String),
        load_baselines (header :: [] :: rest) = load_baselines (header :: rest) := by
  intro header rows
  refine ⟨?_, ?_, ?_⟩
  · simp [load_baselines]
  · intro dr hdr
    simp only [load_baselines, List.mem_map, List.mem_filter] at hdr
    obtain ⟨row, _, hrow⟩ := hdr
    rw [← hrow]
    exact zipHeader_map_fst header row
  · intro rest
    simp [load_baselines, List.filter_cons]

/-- C5 amended witness: the one-column row is loaded, not rejected — it is
counted among the non-blank rows and its record is keyed by the full
header. -/
theorem load_baselines_tolerates_mismatch_witness :
    (load_baselines (fieldnames :: [["2024-01-01"]])).length =
      ([["2024-01-01"]].filter (fun row => !row.isEmpty)).length ∧
    (dictReadRow fieldnames ["2024-01-01"]).fields.map Prod.fst = fieldnames :=
  ⟨(load_baselines_tolerates_mismatch fieldnames [["2024-01-01"]]).1,
   (load_baselines_tolerates_mismatch fieldnames [["2024-01-01"]]).2.1
     (dictReadRow fieldnames ["2024-01-01"]) (by decide)⟩

/-- C6: `compare_baselines` reports the insufficient-data outcome (result
`none`, a printed message, no report) exactly when it is given fewer than
two records; in particular with exactly two records it always produces a
report. -/
theorem compare_insufficient_iff :
    ∀ l : List BaselineRecord, (compare_baselines l).1 = none ↔ l.length < 2 := by
  intro l
  unfold compare_baselines
  by_cases h : l.length < 2
  · rw [if_pos h]
    simp [h]
  · rw [if_neg h]
    have hlen : 2 ≤ (sortByDate l).reverse.length := by
      rw [List.length_reverse, sortByDate_length]
      omega
    cases e : (sortByDate l).reverse with
    | nil => rw [e] at hlen; simp at hlen
    | cons a t =>
        cases t with
        | nil => rw [e] at hlen; simp at hlen
        | cons b t2 => simp [h]

/-- C7: appending to an absent store writes the header then the row; a later
append to the existing store appends exactly one data row and never writes
the header again — so two appends from an absent store give exactly one
header row followed by the two data rows. -/
theorem append_header_once :
    (∀ r₁ r₂ : BaselineRecord,
      appendBaseline (appendBaseline none r₁) r₂ =
        some [fieldnames, recordRow r₁, recordRow r₂]) ∧
    (∀ (rows : List (List String)) (r : BaselineRecord),
      appendBaseline (some rows) r = some (rows ++ [recordRow r])) :=
  ⟨fun _ _ => rfl, fun _ _ => rfl⟩

/-- C8: loading after an append to an existing well-formed store yields the
prior records unchanged followed by one new record, and that record equals
the appended record field for field (every column present, keyed in order,
no surplus cells). -/
theorem append_load_roundtrip :
    ∀ (rows : List (List String)) (r : BaselineRecord),
      loadAll (appendBaseline (some (fieldnames :: rows)) r) =
        some (load_baselines (fieldnames :: rows) ++
          [dictReadRow fieldnames (recordRow r)]) ∧
      (dictReadRow fieldnames (recordRow r)).fields =
        (recordFields r).map (fun p => (p.1, some p.2)) ∧
      (dictReadRow fieldnames (recordRow r)).rest = [] := by
  intro rows r
  refine ⟨?_, rfl, rfl⟩
  show some (load_baselines (fieldnames :: (rows ++ [recordRow r]))) = _
  simp [load_baselines, List.filter_append, recordRow]

/-- C9: on every raw text input the extractor produces exactly one entry per
tracked metric, in declared order, each value a digit string (a non-negative
integer) or the N/A marker; concretely, text containing only
"File open time: 42ms" yields FileOpenTime 42 and N/A for every other
metric, FileSaveTime included, in the same record. -/
theorem extractor_total_per_metric :
    (∀ content : String, (extractMetricValues content).map Prod.fst = metricNames) ∧
    (∀ content : String, ∀ p ∈ extractMetricValues content,
      p.2 = "N/A" ∨ (p.2 ≠ "" ∧ p.2.data.all Char.isDigit = true)) ∧
    extractMetricValues "File open time: 42ms" =
      [("FileOpenTime", "42"), ("FileSaveTime", "N/A"), ("MemoryUsage", "N/A"),
       ("TextInsertionTime", "N/A"), ("NavigationTime", "N/A"),
       ("ScrollingTime", "N/A"), ("SearchReplaceTime", "N/A")] := by
  refine ⟨?_, ?_, by decide⟩
  · intro content
    simp [extractMetricValues, metricPatterns, metricNames]
  · intro content p hp
    simp only [extractMetricValues, List.mem_map] at hp
    obtain ⟨q, _, hq⟩ := hp
    cases e : reSearchNum q.2.1.data q.2.2.data content.data with
    | none => left; rw [← hq]; simp [e]
    | some ds =>
        right
        obtain ⟨hne, hdig⟩ := reSearchNum_digits e
        rw [← hq]
        constructor
        · simp only [e]
          intro hempty
          exact hne (by simpa using congrArg String.data hempty)
        · simp only [e]
          simpa using hdig

/-- C9 witness: the per-metric shape facts applied to the concrete scenario
text and its FileOpenTime entry. -/
theorem extractor_total_per_metric_witness :
    (extractMetricValues "File open time: 42ms").map Prod.fst = metricNames ∧
    (("FileOpenTime", "42").2 = "N/A" ∨
      (("FileOpenTime", "42").2 ≠ "" ∧
        ("FileOpenTime", "42").2.data.all Char.isDigit = true)) :=
  ⟨extractor_total_per_metric.1 "File open time: 42ms",
   extractor_total_per_metric.2.1 "File open time: 42ms" ("FileOpenTime", "42")
     (by decide)⟩

/-- All records of a list sharing one date form a date-sorted list. -/
theorem dateSorted_of_const (d : String) :
    ∀ l : List BaselineRecord, (∀ r ∈ l, r.Date = d) → DateSorted l
  | [], _ => List.Pairwise.nil
  | a :: t, hall => by
      refine List.Pairwise.cons (fun b hb => ?_)
        (dateSorted_of_const d t (fun r hr => hall r (List.mem_cons_of_mem a hr)))
      rw [hall b (List.mem_cons_of_mem a hb), hall a (List.mem_cons_self a t),
        strLt_irrefl]

/-- C10: the date sort behind `compare_baselines` is stable — for any date,
the records carrying it appear in the sorted list exactly in file order; the
record selected as latest (the sorted list's last element) is the last
record in file order among those sharing its date; and a list whose records
all share one date is left entirely unchanged. -/
theorem date_sort_stable :
    (∀ (l : List BaselineRecord) (d : String),
      (sortByDate l).filter (fun x => decide (x.Date = d)) =
        l.filter (fun x => decide (x.Date = d))) ∧
    (∀ (l : List BaselineRecord) (rLast : BaselineRecord),
      (sortByDate l).getLast? = some rLast →
      (l.filter (fun x => decide (x.Date = rLast.Date))).getLast? = some rLast) ∧
    (∀ (l : List BaselineRecord) (d : String),
      (∀ r ∈ l, r.Date = d) → sortByDate l = l) := by
  refine ⟨sortByDate_filter, ?_, ?_⟩
  · intro l rLast h
    rw [← sortByDate_filter]
    exact filter_getLast? h (by simp)
  · intro l d hall
    exact sortByDate_of_sorted (dateSorted_of_const d l hall)

/-- C10 witness: with two records sharing the date 2024-01-01, sorting keeps
the file order, and the file-last record of that date is the selected
latest. -/
theorem date_sort_stable_witness :
    (List.filter (fun x => decide (x.Date = recJanBis.Date))
      [recJan, recJanBis]).getLast? = some recJanBis ∧
    sortByDate [recJan, recJanBis] = [recJan, recJanBis] :=
  ⟨date_sort_stable.2.1 [recJan, recJanBis] recJanBis (by decide),
   date_sort_stable.2.2 [recJan, recJanBis] "2024-01-01" (by decide)⟩
